import Mathlib

/-!
Shallow embedding of the Raft consensus core of
`src/distributed-file-system/goraft/raft.go` and of the file-metadata state
machine of `src/backup/main.go`, with theorems checking the repository's
specification against the code.

Go machine integers (`uint64`) are modelled as `Nat`; the code never
subtracts below zero on the paths modelled here except where noted, and
where overflow could matter an explicit `% 2 ^ 64` appears.  Byte slices are
`List Nat` (each element a byte value).  Channels (`result chan ApplyResult`)
are modelled by a `Bool` recording whether the channel is non-nil, plus an
explicit list of delivered indices produced by the apply loop.  `panic` /
fail-stop paths are modelled by `Option` results (`none` = panic).
-/

namespace Goraft

/-- `Entry` (raft.go:34-38): a log entry.  `hasResult` records whether the
`result` channel is non-nil. -/
structure Entry where
  command : List Nat
  term : Nat
  hasResult : Bool
deriving DecidableEq, Repr, Inhabited

/-- `ClusterMember` (raft.go:70-77), minus the RPC client handle. -/
structure ClusterMember where
  id : Nat
  address : String
  nextIndex : Nat
  matchIndex : Nat
  votedFor : Nat
deriving DecidableEq, Repr, Inhabited

/-- `ServerState` (raft.go:79-85). -/
inductive ServerState where
  | leader
  | follower
  | candidate
deriving DecidableEq, Repr, Inhabited

/-- The mutable fields of `Server` (raft.go:87-110) that the consensus
logic reads and writes (timers, file descriptor and transport handles are
modelled as external effects). -/
structure Server where
  currentTerm : Nat
  log : List Entry
  commitIndex : Nat
  lastApplied : Nat
  state : ServerState
  cluster : List ClusterMember
  clusterIndex : Nat
deriving DecidableEq, Repr, Inhabited

/-- `getVotedFor` (raft.go:248-250): the vote is stored in the local
member's record. -/
def getVotedFor (s : Server) : Nat :=
  (s.cluster.getD s.clusterIndex default).votedFor

/-- `setVotedFor` (raft.go:244-246). -/
def setVotedFor (s : Server) (id : Nat) : Server :=
  { s with cluster :=
      s.cluster.set s.clusterIndex ({ s.cluster.getD s.clusterIndex default with votedFor := id }) }

/-- `updateTerm` (raft.go:389-400).  Returns the new state and whether the
term advanced (in which case the code also persisted metadata and reset the
election deadline). -/
def updateTerm (s : Server) (msgTerm : Nat) : Server × Bool :=
  if s.currentTerm < msgTerm then
    (setVotedFor { s with currentTerm := msgTerm, state := .follower } 0, true)
  else (s, false)

/-- `RequestVoteRequest` (raft.go:44-49). -/
structure RequestVoteRequest where
  term : Nat
  candidateId : Nat
  lastLogIndex : Nat
  lastLogTerm : Nat
deriving DecidableEq, Repr, Inhabited

/-- `RequestVoteResponse` (raft.go:51-54). -/
structure RequestVoteResponse where
  term : Nat
  voteGranted : Bool
deriving DecidableEq, Repr, Inhabited

/-- Result of a vote-request handler step: new server state, the filled-in
response, and whether the handler persisted metadata / reset its election
deadline. -/
structure VoteStep where
  server : Server
  rsp : RequestVoteResponse
  persisted : Bool
  timeoutReset : Bool
deriving DecidableEq, Repr

/-- `HandleRequestVoteRequest` (raft.go:352-387). -/
def HandleRequestVoteRequest (s0 : Server) (req : RequestVoteRequest) : VoteStep :=
  let u := updateTerm s0 req.term
  let s := u.1
  if req.term < s.currentTerm then
    { server := s, rsp := { term := s.currentTerm, voteGranted := false },
      persisted := u.2, timeoutReset := u.2 }
  else
    let lastLogTerm := (s.log.getD (s.log.length - 1) default).term
    let logLen := s.log.length - 1
    let logOk : Prop := lastLogTerm < req.lastLogTerm ∨
      (req.lastLogTerm = lastLogTerm ∧ logLen ≤ req.lastLogIndex)
    let grant : Prop := req.term = s.currentTerm ∧ logOk ∧
      (getVotedFor s = 0 ∨ getVotedFor s = req.candidateId)
    if grant then
      { server := setVotedFor s req.candidateId,
        rsp := { term := s.currentTerm, voteGranted := true },
        persisted := true, timeoutReset := true }
    else
      { server := s, rsp := { term := s.currentTerm, voteGranted := false },
        persisted := u.2, timeoutReset := u.2 }

/-- The receiver's last log term, `s.log[len(s.log)-1].Term`. -/
def lastLogTermOf (s : Server) : Nat :=
  (s.log.getD (s.log.length - 1) default).term

/-- The receiver's last log index, `len(s.log) - 1`. -/
def lastLogIndexOf (s : Server) : Nat :=
  s.log.length - 1

/-- The up-to-date check of raft.go:369-370: the candidate's log is at
least as current as the receiver's. -/
def logUpToDate (s : Server) (req : RequestVoteRequest) : Prop :=
  lastLogTermOf s < req.lastLogTerm ∨
    (req.lastLogTerm = lastLogTermOf s ∧ lastLogIndexOf s ≤ req.lastLogIndex)

instance (s : Server) (req : RequestVoteRequest) : Decidable (logUpToDate s req) := by
  unfold logUpToDate; infer_instance

/-- `AppendEntriesRequest` (raft.go:56-63). -/
structure AppendEntriesRequest where
  term : Nat
  leaderId : Nat
  prevLogIndex : Nat
  prevLogTerm : Nat
  entries : List Entry
  leaderCommit : Nat
deriving DecidableEq, Repr, Inhabited

/-- The entry-processing loop of `HandleAppendEntriesRequest`
(raft.go:437-461), recursing over the incoming entries with `next` the
position of the head entry.  On a term conflict at an existing position the
log is truncated to that position; a missing position is appended; a
matching position is left as is.  Returns the new log and `nNewEntries`.
(The capacity-doubling reallocation of raft.go:444-449 copies the existing
contents unchanged whenever `next ≤ len(log)` at entry to the loop, which
holds for every request that passed the consistency check on a log
holding the sentinel, so it has no content-level effect and is omitted.) -/
def processEntries (log : List Entry) (next : Nat) (entries : List Entry) : List Entry × Nat :=
  match entries with
  | [] => (log, 0)
  | e :: rest =>
      let log1 := if next < log.length ∧ (log.getD next default).term ≠ e.term then
        log.take next else log
      if next < log1.length then
        processEntries log1 (next + 1) rest
      else
        let r := processEntries (log1 ++ [e]) (next + 1) rest
        (r.1, r.2 + 1)

/-- Result of an append-entries handler step. -/
structure AppendStep where
  server : Server
  success : Bool
  rspTerm : Nat
  persisted : Bool
  timeoutReset : Bool
deriving DecidableEq, Repr

/-- The consistency check of raft.go:428-430. -/
def validPreviousLog (s : Server) (req : AppendEntriesRequest) : Prop :=
  req.prevLogIndex = 0 ∨
    (req.prevLogIndex < s.log.length ∧
      (s.log.getD req.prevLogIndex default).term = req.prevLogTerm)

instance (s : Server) (req : AppendEntriesRequest) : Decidable (validPreviousLog s req) := by
  unfold validPreviousLog; infer_instance

/-- `HandleAppendEntriesRequest` (raft.go:402-475). -/
def HandleAppendEntriesRequest (s0 : Server) (req : AppendEntriesRequest) : AppendStep :=
  let u := updateTerm s0 req.term
  let s1 := u.1
  let s2 := if req.term = s1.currentTerm ∧ s1.state = ServerState.candidate then
    { s1 with state := .follower } else s1
  if req.term < s2.currentTerm then
    { server := s2, success := false, rspTerm := s2.currentTerm,
      persisted := u.2, timeoutReset := u.2 }
  else if s2.state ≠ ServerState.follower then
    { server := s2, success := false, rspTerm := s2.currentTerm,
      persisted := u.2, timeoutReset := u.2 }
  else if ¬ validPreviousLog s2 req then
    { server := s2, success := false, rspTerm := s2.currentTerm,
      persisted := u.2, timeoutReset := true }
  else
    let pr := processEntries s2.log (req.prevLogIndex + 1) req.entries
    let newLog := pr.1
    let ci := if s2.commitIndex < req.leaderCommit then
      min req.leaderCommit (newLog.length - 1) else s2.commitIndex
    { server := { s2 with log := newLog, commitIndex := ci },
      success := true, rspTerm := s2.currentTerm,
      persisted := true, timeoutReset := true }

/-- The receiver state after the two pre-processing rules of
`HandleAppendEntriesRequest` (raft.go:406-411): the higher-term rule, then
a candidate of the same term converting to follower. -/
def afterAppendTermRules (s0 : Server) (req : AppendEntriesRequest) : Server :=
  let s1 := (updateTerm s0 req.term).1
  if req.term = s1.currentTerm ∧ s1.state = ServerState.candidate then
    { s1 with state := .follower } else s1

/-- The countdown loop of `advanceCommitIndex` (raft.go:626-635): start
from quorum = ⌊N/2⌋+1 and decrement once for the leader itself and once for
each peer whose `matchIndex` reaches `i`; `break` on reaching zero is the
same as staying at zero. -/
def quorumLoop (s : Server) (i : Nat) : Nat :=
  s.cluster.enum.foldl
    (fun q jm => if q = 0 then q
      else if jm.1 = s.clusterIndex ∨ i ≤ jm.2.matchIndex then q - 1 else q)
    (s.cluster.length / 2 + 1)

/-- The number of cluster members counted as holding index `i` by the
countdown loop: the leader itself plus every peer whose `matchIndex`
reaches `i`. -/
def countHolders (s : Server) (i : Nat) : Nat :=
  s.cluster.enum.countP (fun jm => decide (jm.1 = s.clusterIndex ∨ i ≤ jm.2.matchIndex))

/-- Index `i` is commitable by the leader: a quorum of members holds it
and its entry is from the current term (raft.go:637). -/
def commitable (s : Server) (i : Nat) : Prop :=
  s.cluster.length / 2 + 1 ≤ countHolders s i ∧
    (s.log.getD i default).term = s.currentTerm

instance (s : Server) (i : Nat) : Decidable (commitable s i) := by
  unfold commitable; infer_instance

/-- The downward scan of raft.go:625-642, structurally on the loop
variable `i`; returns the new `commitIndex`. -/
def scanCommit (s : Server) : Nat → Nat
  | 0 => s.commitIndex
  | i + 1 =>
      if i + 1 ≤ s.commitIndex then s.commitIndex
      else if quorumLoop s (i + 1) = 0 ∧ (s.log.getD (i + 1) default).term = s.currentTerm then
        i + 1
      else scanCommit s i

/-- The apply loop of raft.go:645-657, with `fuel = commitIndex -
lastApplied`.  Returns the final `lastApplied` and the list of log indices
whose result sink was delivered to; the delivery (raft.go:653-655) sits
inside the `len(entry.Command) > 0` branch, exactly as in the code. -/
def applyGo (log : List Entry) (la : Nat) : Nat → Nat × List Nat
  | 0 => (la, [])
  | fuel + 1 =>
      let la1 := la + 1
      let entry := log.getD la1 default
      if entry.command ≠ [] then
        let r := applyGo log la1 fuel
        if entry.hasResult then (r.1, la1 :: r.2) else r
      else
        applyGo log la1 fuel

/-- The `for s.lastApplied < s.commitIndex` loop of raft.go:645-657. -/
def applyLoop (s : Server) : Server × List Nat :=
  let r := applyGo s.log s.lastApplied (s.commitIndex - s.lastApplied)
  ({ s with lastApplied := r.1 }, r.2)

/-- `advanceCommitIndex` (raft.go:618-658): on the leader, scan from
`lastLogIndex` down for a quorum-replicated current-term entry, then run
the apply loop.  Returns the new state and the delivered sink indices. -/
def advanceCommitIndex (s : Server) : Server × List Nat :=
  let s1 := if s.state = ServerState.leader then
    { s with commitIndex := scanCommit s (s.log.length - 1) } else s
  applyLoop s1

/-! ### Durable log store (raft.go:180-312)

`persist` and `restore` exchange bytes with the metadata file; the file is
a `List Nat` of byte values.  `PAGE_SIZE = 4096`, `ENTRY_HEADER = 16`,
`ENTRY_SIZE = 128` (raft.go:180-182). -/

/-- Little-endian encoding of `n` into `k` bytes
(`binary.LittleEndian.PutUint64` with `k = 8`). -/
def toLE : Nat → Nat → List Nat
  | 0, _ => []
  | k + 1, n => n % 256 :: toLE k (n / 256)

/-- Little-endian decoding (`binary.LittleEndian.Uint64` on an 8-byte
slice). -/
def fromLE (bs : List Nat) : Nat :=
  bs.foldr (fun b acc => b + 256 * acc) 0

/-- One 128-byte entry slot as written by raft.go:207-222: term, command
length, command bytes, zero padding.  A command longer than
`ENTRY_SIZE - ENTRY_HEADER = 112` bytes panics (raft.go:209-212), modelled
as `none`. -/
def encodeEntry (e : Entry) : Option (List Nat) :=
  if 112 < e.command.length then none
  else some (toLE 8 e.term ++ toLE 8 e.command.length ++ e.command ++
    List.replicate (112 - e.command.length) 0)

/-- The slots for a whole log, in order (the `for i := newLogOffset` loop
of raft.go:208-223 with `newLogOffset = 0`, i.e. a full-log write). -/
def encodeLog : List Entry → Option (List Nat)
  | [] => some []
  | e :: rest =>
      match encodeEntry e, encodeLog rest with
      | some slot, some body => some (slot ++ body)
      | _, _ => none

/-- The 4096-byte metadata page of raft.go:191-194: current term, votedFor
and log length, zero filled to `PAGE_SIZE`. -/
def metadataPage (s : Server) : List Nat :=
  toLE 8 s.currentTerm ++ toLE 8 (getVotedFor s) ++ toLE 8 s.log.length ++
    List.replicate 4072 0

/-- The file contents produced by `persist(true, 0)` (raft.go:184-236) on
a fresh file: the metadata page followed by every entry slot.  `none` is
the command-too-large panic. -/
def persistBytes (s : Server) : Option (List Nat) :=
  match encodeLog s.log with
  | some body => some (metadataPage s ++ body)
  | none => none

/-- The slot-reading loop of `restore` (raft.go:291-306): read `k` slots
of 128 bytes each.  A short read fails the `Read full entry` assertion
(`none`); a recorded command length taking the slice past the 128-byte
array (raft.go:304) panics (`none`). -/
def decodeSlots : Nat → List Nat → Option (List Entry)
  | 0, _ => some []
  | k + 1, bytes =>
      if bytes.length < 128 then none
      else
        let slot := bytes.take 128
        let term := fromLE (slot.take 8)
        let lenValue := fromLE ((slot.drop 8).take 8)
        if 128 < 16 + lenValue then none
        else
          match decodeSlots k (bytes.drop 128) with
          | some rest =>
              some ({ command := (slot.drop 16).take lenValue, term := term,
                      hasResult := false } :: rest)
          | none => none

/-- `restore` (raft.go:256-312) run on a freshly started server (term 0,
no vote): returns `(currentTerm, votedFor, log)`.  An empty file is the
`io.EOF` branch, which keeps the zero state and inserts the sentinel via
`ensureLog`; a nonempty file shorter than a page fails the `Read full
page` assertion. -/
def restoreBytes (file : List Nat) : Option (Nat × Nat × List Entry) :=
  if file.length = 0 then some (0, 0, [default])
  else if file.length < 4096 then none
  else
    let page := file.take 4096
    let lenLog := fromLE ((page.drop 16).take 8)
    match decodeSlots lenLog (file.drop 4096) with
    | some log =>
        some (fromLE (page.take 8), fromLE ((page.drop 8).take 8),
          if log.length = 0 then [default] else log)
    | none => none

/-- The synchronous part of `Server.Apply` (raft.go:479-500): the
not-leader guard, appending one entry per command in the current term with
a fresh result sink, and the persist call.  Returns the new state, whether
`ErrApplyToLeader` was returned, and whether persist ran. -/
def Apply (s : Server) (commands : List (List Nat)) : Server × Bool × Bool :=
  if s.state ≠ ServerState.leader then (s, true, false)
  else
    ({ s with log :=
        s.log ++ commands.map (fun c => { command := c, term := s.currentTerm, hasResult := true }) },
      false, true)

end Goraft

namespace BackupMain

/-! ### File-metadata state machine (src/backup/main.go) -/

/-- `command` (main.go:75-81).  `commandKind` is a `uint8`, kept as the
raw byte value: `CreateFile = 0`, `DeleteFile = 1`, `RenameFile = 2`. -/
structure DFSCommand where
  kind : Nat
  path : List Nat
  oldPath : List Nat
  newPath : List Nat
  size : Nat
deriving DecidableEq, Repr, Inhabited

/-- `binary.Read(buf, binary.LittleEndian, &x)` for a `uint64` on a
`bytes.Buffer` (main.go:108 etc.): on 8 available bytes it consumes them
and decodes; on fewer it consumes what is there, reports an (ignored)
error, and leaves the variable at its zero value. -/
def read8 (buf : List Nat) : Nat × List Nat :=
  if 8 ≤ buf.length then (Goraft.fromLE (buf.take 8), buf.drop 8) else (0, [])

/-- `decodeCommand` (main.go:101-121).  `buf.Next(1)` on an empty buffer
returns an empty slice, so the index `[0]` at main.go:105 panics: `none`.
Otherwise the head byte is the kind and three length-prefixed strings and
a size follow (`buf.Next(n)` returns at most `n` bytes). -/
def decodeCommand (msg : List Nat) : Option DFSCommand :=
  match msg with
  | [] => none
  | k :: rest =>
      let r1 := read8 rest
      let path := r1.2.take r1.1
      let r2 := read8 (r1.2.drop r1.1)
      let oldPath := r2.2.take r2.1
      let r3 := read8 (r2.2.drop r2.1)
      let newPath := r3.2.take r3.1
      let r4 := read8 (r3.2.drop r3.1)
      some { kind := k, path := path, oldPath := oldPath, newPath := newPath, size := r4.1 }

/-- `sync.Map.Store` on the path-keyed file map (the stored record's
timestamp is outside the model). -/
def storeFile (files : List (List Nat × Nat)) (path : List Nat) (size : Nat) :
    List (List Nat × Nat) :=
  (path, size) :: files.filter (fun kv => kv.1 ≠ path)

/-- `sync.Map.Delete`. -/
def deleteFile (files : List (List Nat × Nat)) (path : List Nat) :
    List (List Nat × Nat) :=
  files.filter (fun kv => kv.1 ≠ path)

/-- `DFSStateMachine.Apply` (main.go:40-65): decode, then switch on the
kind; the default branch returns the unknown-command error.  `none` is the
decode panic; the `Bool` records whether the error was returned. -/
def DFSApply (files : List (List Nat × Nat)) (cmd : List Nat) :
    Option (List (List Nat × Nat) × Bool) :=
  match decodeCommand cmd with
  | none => none
  | some c =>
      if c.kind = 0 then some (storeFile files c.path c.size, false)
      else if c.kind = 1 then some (deleteFile files c.path, false)
      else if c.kind = 2 then
        some (storeFile (deleteFile files c.oldPath) c.newPath c.size, false)
      else some (files, true)

end BackupMain

namespace Fix

/-! ### Concrete states used to instantiate the theorems -/

/-- The sentinel entry at index 0 (spec §3). -/
def sentinel : Goraft.Entry := { command := [], term := 0, hasResult := false }

/-- A cluster member with a given id and match index. -/
def mem (id mi : Nat) : Goraft.ClusterMember :=
  { id := id, address := "", nextIndex := 1, matchIndex := mi, votedFor := 0 }

/-- A freshly restored single-member follower. -/
def follower0 : Goraft.Server :=
  { currentTerm := 0, log := [sentinel], commitIndex := 0, lastApplied := 0,
    state := .follower, cluster := [mem 1 0], clusterIndex := 0 }

/-- A term-1 entry carrying command byte 1. -/
def e1 : Goraft.Entry := { command := [1], term := 1, hasResult := false }

/-- A term-2 entry carrying command byte 2. -/
def e2 : Goraft.Entry := { command := [2], term := 2, hasResult := false }

/-- Append request replicating `e1` in term 1 with leaderCommit 1. -/
def reqA1 : Goraft.AppendEntriesRequest :=
  { term := 1, leaderId := 2, prevLogIndex := 0, prevLogTerm := 0,
    entries := [e1], leaderCommit := 1 }

/-- Conflicting append request of a later term at the same position. -/
def reqA2 : Goraft.AppendEntriesRequest :=
  { term := 2, leaderId := 3, prevLogIndex := 0, prevLogTerm := 0,
    entries := [e2], leaderCommit := 0 }

/-- A follower whose committed entry at index 1 has an empty command but
carries a result sink. -/
def sEmptyCmd : Goraft.Server :=
  { currentTerm := 1, log := [sentinel, { command := [], term := 1, hasResult := true }],
    commitIndex := 1, lastApplied := 0,
    state := .follower, cluster := [mem 1 0], clusterIndex := 0 }

/-- The same state with a nonempty command at index 1. -/
def sNonEmptyCmd : Goraft.Server :=
  { sEmptyCmd with log := [sentinel, { command := [7], term := 1, hasResult := true }] }

/-- A three-member leader whose entry 1 is replicated on itself and one
peer. -/
def leader3 : Goraft.Server :=
  { currentTerm := 1, log := [sentinel, e1], commitIndex := 0, lastApplied := 0,
    state := .leader, cluster := [mem 1 0, mem 2 1, mem 3 0], clusterIndex := 0 }

/-- The state of `follower0` after accepting `reqA1`: log `[sentinel, e1]`,
commit index 1, term 1. -/
def sAfter1 : Goraft.Server :=
  { currentTerm := 1, log := [sentinel, e1], commitIndex := 1, lastApplied := 0,
    state := .follower, cluster := [mem 1 0], clusterIndex := 0 }

/-- A heartbeat for `sAfter1` whose `prevLogIndex` covers the committed
prefix. -/
def reqA3 : Goraft.AppendEntriesRequest :=
  { term := 1, leaderId := 2, prevLogIndex := 1, prevLogTerm := 1,
    entries := [], leaderCommit := 1 }

/-- A vote request that `follower0` grants. -/
def reqV : Goraft.RequestVoteRequest :=
  { term := 1, candidateId := 2, lastLogIndex := 0, lastLogTerm := 0 }

/-- A server with a nontrivial persisted state for the durability round
trip. -/
def sPersist : Goraft.Server :=
  { currentTerm := 3, log := [sentinel, { command := [10, 20], term := 2, hasResult := true }],
    commitIndex := 1, lastApplied := 1,
    state := .follower,
    cluster := [{ mem 1 0 with votedFor := 2 }], clusterIndex := 0 }

/-- An entry whose command is exactly at the 112-byte limit. -/
def entry112 : Goraft.Entry :=
  { command := List.replicate 112 7, term := 4, hasResult := false }

/-- An entry whose command is one byte over the limit. -/
def entry113 : Goraft.Entry :=
  { command := List.replicate 113 7, term := 4, hasResult := false }

end Fix

/-! ### Helper lemmas -/

/-- Taking the length of the left part of an append returns it. -/
theorem take_len_append {α : Type} (l1 l2 : List α) (n : Nat) (h : l1.length = n) :
    (l1 ++ l2).take n = l1 := by
  subst h; exact List.take_left l1 l2

/-- Dropping the length of the left part of an append returns the right
part. -/
theorem drop_len_append {α : Type} (l1 l2 : List α) (n : Nat) (h : l1.length = n) :
    (l1 ++ l2).drop n = l2 := by
  subst h; exact List.drop_left l1 l2

/-- `toLE` produces exactly `k` bytes. -/
theorem toLE_length : ∀ (k n : Nat), (Goraft.toLE k n).length = k
  | 0, _ => rfl
  | k + 1, n => by simp [Goraft.toLE, toLE_length k]

/-- Decoding a little-endian encoding recovers the value modulo `256 ^ k`. -/
theorem fromLE_toLE : ∀ (k n : Nat), Goraft.fromLE (Goraft.toLE k n) = n % 256 ^ k
  | 0, n => by simp [Goraft.toLE, Goraft.fromLE, Nat.mod_one]
  | k + 1, n => by
      have ih := fromLE_toLE k (n / 256)
      simp only [Goraft.toLE, Goraft.fromLE, List.foldr_cons] at ih ⊢
      rw [ih, pow_succ, mul_comm (256 ^ k) 256, Nat.mod_mul]

/-- C8: calling `Apply` on a non-leader returns the `ErrApplyToLeader`
sentinel, appends nothing, persists nothing and leaves the server state
unchanged. -/
theorem apply_not_leader (s : Goraft.Server) (commands : List (List Nat))
    (h : s.state ≠ Goraft.ServerState.leader) :
    Goraft.Apply s commands = (s, true, false) := by
  unfold Goraft.Apply
  rw [if_pos h]

/-- Witness for `apply_not_leader` at a concrete follower state. -/
theorem apply_not_leader_witness :
    Goraft.Apply Fix.follower0 [[1, 2]] = (Fix.follower0, true, false) :=
  apply_not_leader Fix.follower0 [[1, 2]] (by decide)

/-- C9: a 112-byte command is accepted by the store and written into its
128-byte slot with its length in the slot header and its bytes at offset
16; a command of 113 bytes or more makes `persist` panic (`none`) before
anything is written. -/
theorem persist_command_size_boundary (e : Goraft.Entry) :
    (e.command.length = 112 →
      ∃ slot, Goraft.encodeEntry e = some slot ∧ slot.length = 128 ∧
        Goraft.fromLE ((slot.drop 8).take 8) = 112 ∧
        (slot.drop 16).take 112 = e.command) ∧
    (113 ≤ e.command.length → Goraft.encodeEntry e = none) := by
  constructor
  · intro h
    refine ⟨Goraft.toLE 8 e.term ++ Goraft.toLE 8 e.command.length ++ e.command ++
      List.replicate (112 - e.command.length) 0, ?_, ?_, ?_, ?_⟩
    · unfold Goraft.encodeEntry
      rw [if_neg (by omega)]
    · simp [toLE_length, h]
    · simp only [List.append_assoc]
      rw [drop_len_append _ _ 8 (toLE_length 8 _), take_len_append _ _ 8 (toLE_length 8 _),
        fromLE_toLE, h]
      exact Nat.mod_eq_of_lt (by norm_num)
    · rw [show Goraft.toLE 8 e.term ++ Goraft.toLE 8 e.command.length ++ e.command ++
          List.replicate (112 - e.command.length) 0 =
          (Goraft.toLE 8 e.term ++ Goraft.toLE 8 e.command.length) ++
          (e.command ++ List.replicate (112 - e.command.length) 0) by simp,
        drop_len_append _ _ 16 (by simp [toLE_length]),
        List.take_append_of_le_length (by omega), List.take_of_length_le (by omega)]
  · intro h
    unfold Goraft.encodeEntry
    rw [if_pos (by omega)]

/-- Witness for `persist_command_size_boundary` at the 112- and 113-byte
boundary commands. -/
theorem persist_command_size_boundary_witness :
    (∃ slot, Goraft.encodeEntry Fix.entry112 = some slot ∧ slot.length = 128 ∧
      Goraft.fromLE ((slot.drop 8).take 8) = 112 ∧
      (slot.drop 16).take 112 = Fix.entry112.command) ∧
    Goraft.encodeEntry Fix.entry113 = none :=
  ⟨(persist_command_size_boundary Fix.entry112).1 (by decide),
   (persist_command_size_boundary Fix.entry113).2 (by decide)⟩

/-- C10: `decodeCommand` on the empty byte slice panics (indexing the
empty result of `buf.Next(1)`), so `DFSStateMachine.Apply` on an empty
payload panics, while a malformed but nonempty payload such as `[99]`
decodes to an unknown kind and `Apply` returns the unknown-command error
with the file map untouched. -/
theorem decodeCommand_empty_panics (files : List (List Nat × Nat)) :
    BackupMain.decodeCommand [] = none ∧
    BackupMain.DFSApply files [] = none ∧
    BackupMain.decodeCommand [99] =
      some { kind := 99, path := [], oldPath := [], newPath := [], size := 0 } ∧
    BackupMain.DFSApply files [99] = some (files, true) := by
  refine ⟨rfl, rfl, by decide, ?_⟩
  unfold BackupMain.DFSApply
  rw [show BackupMain.decodeCommand [99] =
    some { kind := 99, path := [], oldPath := [], newPath := [], size := 0 } from by decide]
  simp

/-- `setVotedFor` stores the given id in the local member record. -/
theorem getVotedFor_setVotedFor (s : Goraft.Server) (id : Nat)
    (h : s.clusterIndex < s.cluster.length) :
    Goraft.getVotedFor (Goraft.setVotedFor s id) = id := by
  unfold Goraft.getVotedFor Goraft.setVotedFor
  simp [List.getD_eq_getElem?_getD, List.getElem?_set_self h]

/-- `updateTerm` never touches the log, the cluster shape or the commit
bookkeeping. -/
theorem updateTerm_frame (s : Goraft.Server) (t : Nat) :
    ((Goraft.updateTerm s t).1).log = s.log ∧
    ((Goraft.updateTerm s t).1).clusterIndex = s.clusterIndex ∧
    ((Goraft.updateTerm s t).1).cluster.length = s.cluster.length ∧
    ((Goraft.updateTerm s t).1).commitIndex = s.commitIndex := by
  unfold Goraft.updateTerm Goraft.setVotedFor
  split <;> simp

/-- After `updateTerm` the current term is at least the message term. -/
theorem updateTerm_term_ge (s : Goraft.Server) (t : Nat) :
    t ≤ ((Goraft.updateTerm s t).1).currentTerm := by
  unfold Goraft.updateTerm Goraft.setVotedFor
  split
  · simp
  · simp; omega

/-- C2: the vote is granted iff, on the state produced by the higher-term
pre-processing rule, the request's term equals the current term, votedFor
is 0 or already the candidate, and the candidate's log is at least as
up-to-date as the receiver's; the response always carries the receiver's
current term, and a grant records the candidate as votedFor, persists the
metadata page and resets the election deadline. -/
theorem handleRequestVote_grant_spec (s0 : Goraft.Server) (req : Goraft.RequestVoteRequest)
    (_hlog : s0.log ≠ []) (hidx : s0.clusterIndex < s0.cluster.length) :
    ((Goraft.HandleRequestVoteRequest s0 req).rsp.voteGranted = true ↔
      req.term = (Goraft.updateTerm s0 req.term).1.currentTerm ∧
      (Goraft.getVotedFor (Goraft.updateTerm s0 req.term).1 = 0 ∨
        Goraft.getVotedFor (Goraft.updateTerm s0 req.term).1 = req.candidateId) ∧
      Goraft.logUpToDate (Goraft.updateTerm s0 req.term).1 req) ∧
    (Goraft.HandleRequestVoteRequest s0 req).rsp.term =
      (Goraft.updateTerm s0 req.term).1.currentTerm ∧
    ((Goraft.HandleRequestVoteRequest s0 req).rsp.voteGranted = true →
      Goraft.getVotedFor (Goraft.HandleRequestVoteRequest s0 req).server = req.candidateId ∧
      (Goraft.HandleRequestVoteRequest s0 req).persisted = true ∧
      (Goraft.HandleRequestVoteRequest s0 req).timeoutReset = true) := by
  have hidx2 : ((Goraft.updateTerm s0 req.term).1).clusterIndex <
      ((Goraft.updateTerm s0 req.term).1).cluster.length := by
    rw [(updateTerm_frame s0 req.term).2.1, (updateTerm_frame s0 req.term).2.2.1]
    exact hidx
  unfold Goraft.HandleRequestVoteRequest Goraft.logUpToDate Goraft.lastLogTermOf
    Goraft.lastLogIndexOf
  dsimp only
  split_ifs with h1 h2
  · refine ⟨iff_of_false (by simp) (fun hc => ?_), rfl, fun hfalse => by simp at hfalse⟩
    have := hc.1
    omega
  · exact ⟨⟨fun _ => ⟨h2.1, h2.2.2, h2.2.1⟩, fun _ => rfl⟩, rfl,
      fun _ => ⟨getVotedFor_setVotedFor _ _ hidx2, rfl, rfl⟩⟩
  · exact ⟨iff_of_false (by simp) (fun hc => h2 ⟨hc.1, hc.2.2, hc.2.1⟩), rfl,
      fun hfalse => by simp at hfalse⟩

/-- Witness for `handleRequestVote_grant_spec` at a fresh follower and a
grantable request. -/
theorem handleRequestVote_grant_spec_witness :
    ((Goraft.HandleRequestVoteRequest Fix.follower0 Fix.reqV).rsp.voteGranted = true ↔
      Fix.reqV.term = (Goraft.updateTerm Fix.follower0 Fix.reqV.term).1.currentTerm ∧
      (Goraft.getVotedFor (Goraft.updateTerm Fix.follower0 Fix.reqV.term).1 = 0 ∨
        Goraft.getVotedFor (Goraft.updateTerm Fix.follower0 Fix.reqV.term).1 =
          Fix.reqV.candidateId) ∧
      Goraft.logUpToDate (Goraft.updateTerm Fix.follower0 Fix.reqV.term).1 Fix.reqV) ∧
    (Goraft.HandleRequestVoteRequest Fix.follower0 Fix.reqV).rsp.term =
      (Goraft.updateTerm Fix.follower0 Fix.reqV.term).1.currentTerm ∧
    ((Goraft.HandleRequestVoteRequest Fix.follower0 Fix.reqV).rsp.voteGranted = true →
      Goraft.getVotedFor (Goraft.HandleRequestVoteRequest Fix.follower0 Fix.reqV).server =
        Fix.reqV.candidateId ∧
      (Goraft.HandleRequestVoteRequest Fix.follower0 Fix.reqV).persisted = true ∧
      (Goraft.HandleRequestVoteRequest Fix.follower0 Fix.reqV).timeoutReset = true) :=
  handleRequestVote_grant_spec Fix.follower0 Fix.reqV (by decide) (by decide)

/-- C3: an append-entries request succeeds iff, after the higher-term rule
and the candidate-to-follower conversion, the request's term equals the
current term, the receiver is a follower, and the consistency check holds
(`prevLogIndex == 0`, or `prevLogIndex < len(log)` with a matching term);
in particular `prevLogIndex == 0` always passes the consistency check. -/
theorem handleAppendEntries_success_iff (s0 : Goraft.Server)
    (req : Goraft.AppendEntriesRequest) (_hlog : s0.log ≠ []) :
    ((Goraft.HandleAppendEntriesRequest s0 req).success = true ↔
      req.term = (Goraft.afterAppendTermRules s0 req).currentTerm ∧
      (Goraft.afterAppendTermRules s0 req).state = Goraft.ServerState.follower ∧
      Goraft.validPreviousLog (Goraft.afterAppendTermRules s0 req) req) ∧
    (req.prevLogIndex = 0 →
      Goraft.validPreviousLog (Goraft.afterAppendTermRules s0 req) req) := by
  refine ⟨?_, fun h0 => Or.inl h0⟩
  have hge := updateTerm_term_ge s0 req.term
  unfold Goraft.HandleAppendEntriesRequest Goraft.afterAppendTermRules
  dsimp only
  by_cases hc : req.term = ((Goraft.updateTerm s0 req.term).1).currentTerm ∧
      ((Goraft.updateTerm s0 req.term).1).state = Goraft.ServerState.candidate
  · rw [if_pos hc]
    dsimp only
    split_ifs with h1 h2 h3 h4
    · exact iff_of_false (by simp) (fun hx => absurd hx.1 (Nat.ne_of_lt h1))
    · exact absurd rfl h2
    all_goals
      first
        | exact iff_of_true rfl ⟨hc.1, rfl, h3⟩
        | exact iff_of_false (by simp) (fun hx => h3 hx.2.2)
  · rw [if_neg hc]
    split_ifs with h1 h2 h3 h4
    · exact iff_of_false (by simp) (fun hx => absurd hx.1 (Nat.ne_of_lt h1))
    · exact iff_of_false (by simp) (fun hx => h2 hx.2.1)
    all_goals
      first
        | exact iff_of_true rfl ⟨by omega, not_ne_iff.mp h2, h3⟩
        | exact iff_of_false (by simp) (fun hx => h3 hx.2.2)

/-- Witness for `handleAppendEntries_success_iff` at a fresh follower and
the first replication request. -/
theorem handleAppendEntries_success_iff_witness :
    (((Goraft.HandleAppendEntriesRequest Fix.follower0 Fix.reqA1).success = true ↔
      Fix.reqA1.term = (Goraft.afterAppendTermRules Fix.follower0 Fix.reqA1).currentTerm ∧
      (Goraft.afterAppendTermRules Fix.follower0 Fix.reqA1).state =
        Goraft.ServerState.follower ∧
      Goraft.validPreviousLog (Goraft.afterAppendTermRules Fix.follower0 Fix.reqA1)
        Fix.reqA1) ∧
    (Fix.reqA1.prevLogIndex = 0 →
      Goraft.validPreviousLog (Goraft.afterAppendTermRules Fix.follower0 Fix.reqA1)
        Fix.reqA1)) :=
  handleAppendEntries_success_iff Fix.follower0 Fix.reqA1 (by decide)

/-- If every incoming entry already sits at its position in the log with
the same term, the entry-processing loop leaves the log unchanged and
appends nothing. -/
theorem processEntries_noop : ∀ (es log : List Goraft.Entry) (next : Nat),
    (∀ k, k < es.length → next + k < log.length ∧
      (log.getD (next + k) default).term = (es.getD k default).term) →
    Goraft.processEntries log next es = (log, 0) := by
  intro es
  induction es with
  | nil => intro log next _; rfl
  | cons e rest ih =>
      intro log next h
      have h0 := h 0 (by simp)
      simp only [Nat.add_zero, List.getD_cons_zero] at h0
      unfold Goraft.processEntries
      dsimp only
      have hcond : ¬ (next < log.length ∧ (log.getD next default).term ≠ e.term) :=
        fun hx => hx.2 h0.2
      rw [if_neg hcond, if_pos h0.1]
      refine ih log (next + 1) (fun k hk => ?_)
      have hs := h (k + 1) (by simpa using hk)
      have hidx : next + (k + 1) = next + 1 + k := by omega
      rw [hidx, List.getD_cons_succ] at hs
      exact hs

/-- C6: an append-entries request whose entries already occur in the
receiver's log at the same positions with the same terms leaves the log
unchanged. -/
theorem appendEntries_idempotent (s0 : Goraft.Server) (req : Goraft.AppendEntriesRequest)
    (hmatch : ∀ k, k < req.entries.length →
      req.prevLogIndex + 1 + k < s0.log.length ∧
      (s0.log.getD (req.prevLogIndex + 1 + k) default).term =
        (req.entries.getD k default).term) :
    (Goraft.HandleAppendEntriesRequest s0 req).server.log = s0.log := by
  have hlog1 : ((Goraft.updateTerm s0 req.term).1).log = s0.log :=
    (updateTerm_frame s0 req.term).1
  have hpe := processEntries_noop req.entries s0.log (req.prevLogIndex + 1) hmatch
  unfold Goraft.HandleAppendEntriesRequest
  dsimp only
  split_ifs
  all_goals
    first
      | exact hlog1
      | (dsimp only; rw [hlog1, hpe])

/-- Witness for `appendEntries_idempotent`: redelivering `reqA1` to the
state it produced is a no-op on the log. -/
theorem appendEntries_idempotent_witness :
    (Goraft.HandleAppendEntriesRequest Fix.sAfter1 Fix.reqA1).server.log = Fix.sAfter1.log :=
  appendEntries_idempotent Fix.sAfter1 Fix.reqA1 (by decide)

/-- The entry-processing loop never modifies positions below `next`: the
prefix of length `next` survives, and the log never shrinks below `next`. -/
theorem processEntries_untouched_below :
    ∀ (es log : List Goraft.Entry) (next : Nat), next ≤ log.length →
      (Goraft.processEntries log next es).1.take next = log.take next ∧
        next ≤ (Goraft.processEntries log next es).1.length := by
  intro es
  induction es with
  | nil => intro log next h; exact ⟨rfl, h⟩
  | cons e rest ih =>
      intro log next h
      unfold Goraft.processEntries
      dsimp only
      by_cases hconf : next < log.length ∧ (log.getD next default).term ≠ e.term
      · rw [if_pos hconf]
        have hlen : (log.take next).length = next := by
          rw [List.length_take]
          omega
        rw [if_neg (by omega)]
        have hih := ih (log.take next ++ [e]) (next + 1) (by simp [hlen])
        refine ⟨?_, by dsimp only; omega⟩
        dsimp only
        have h1 : (Goraft.processEntries (log.take next ++ [e]) (next + 1) rest).1.take next =
            ((Goraft.processEntries (log.take next ++ [e]) (next + 1) rest).1.take
              (next + 1)).take next := by
          rw [List.take_take, (by omega : min next (next + 1) = next)]
        rw [h1, hih.1, List.take_take, (by omega : min next (next + 1) = next),
          List.take_append_of_le_length (by omega), List.take_take,
          (by omega : min next next = next)]
      · rw [if_neg hconf]
        by_cases hlt : next < log.length
        · rw [if_pos hlt]
          have hih := ih log (next + 1) (by omega)
          refine ⟨?_, by omega⟩
          have h1 : (Goraft.processEntries log (next + 1) rest).1.take next =
              ((Goraft.processEntries log (next + 1) rest).1.take (next + 1)).take next := by
            rw [List.take_take, (by omega : min next (next + 1) = next)]
          rw [h1, hih.1, List.take_take, (by omega : min next (next + 1) = next)]
        · rw [if_neg hlt]
          have hih := ih (log ++ [e]) (next + 1) (by simp; omega)
          refine ⟨?_, by dsimp only; omega⟩
          dsimp only
          have h1 : (Goraft.processEntries (log ++ [e]) (next + 1) rest).1.take next =
              ((Goraft.processEntries (log ++ [e]) (next + 1) rest).1.take (next + 1)).take
                next := by
            rw [List.take_take, (by omega : min next (next + 1) = next)]
          rw [h1, hih.1, List.take_take, (by omega : min next (next + 1) = next),
            List.take_append_of_le_length (by omega)]

/-- Positions strictly below `next` are untouched by the entry loop. -/
theorem processEntries_getElem?_below (es log : List Goraft.Entry) (next k : Nat)
    (hle : next ≤ log.length) (hk : k < next) :
    (Goraft.processEntries log next es).1[k]? = log[k]? := by
  have hp := processEntries_untouched_below es log next hle
  calc (Goraft.processEntries log next es).1[k]?
      = ((Goraft.processEntries log next es).1.take next)[k]? :=
        (List.getElem?_take_of_lt hk).symm
    _ = (log.take next)[k]? := by rw [hp.1]
    _ = log[k]? := List.getElem?_take_of_lt hk

/-- C4 counterexample: from a fresh follower, an accepted append commits
the entry `e1` at index 1 (`commitIndex = 1`); a second well-formed request
of a later term with `prevLogIndex = 0` and a conflicting entry then
truncates and overwrites index 1 — an entry at an index ≤ `commitIndex` is
deleted by the handler. -/
theorem commit_stability_counterexample :
    (Goraft.HandleAppendEntriesRequest Fix.follower0 Fix.reqA1).server.commitIndex = 1 ∧
    (Goraft.HandleAppendEntriesRequest Fix.follower0 Fix.reqA1).server.log[1]? =
      some Fix.e1 ∧
    (Goraft.HandleAppendEntriesRequest
        (Goraft.HandleAppendEntriesRequest Fix.follower0 Fix.reqA1).server
        Fix.reqA2).server.log[1]? = some Fix.e2 ∧
    Fix.e2 ≠ Fix.e1 ∧
    (Goraft.HandleAppendEntriesRequest
        (Goraft.HandleAppendEntriesRequest Fix.follower0 Fix.reqA1).server
        Fix.reqA2).server.commitIndex = 1 := by
  decide

/-- C4 amended: the entry-processing step leaves every log position at an
index ≤ `prevLogIndex` unchanged, so entries at indices ≤ `commitIndex`
survive whenever `commitIndex ≤ prevLogIndex`; the code does not enforce
this bound against arbitrary requests. -/
theorem appendEntries_commit_stability (s0 : Goraft.Server)
    (req : Goraft.AppendEntriesRequest) (hlog : s0.log ≠ [])
    (hprev : s0.commitIndex ≤ req.prevLogIndex) :
    ∀ k, k ≤ s0.commitIndex →
      (Goraft.HandleAppendEntriesRequest s0 req).server.log[k]? = s0.log[k]? := by
  intro k hk
  have hlog1 : ((Goraft.updateTerm s0 req.term).1).log = s0.log :=
    (updateTerm_frame s0 req.term).1
  have hpos : 0 < s0.log.length := List.length_pos.mpr hlog
  unfold Goraft.HandleAppendEntriesRequest
  dsimp only
  by_cases hc : req.term = ((Goraft.updateTerm s0 req.term).1).currentTerm ∧
      ((Goraft.updateTerm s0 req.term).1).state = Goraft.ServerState.candidate
  · rw [if_pos hc]
    dsimp only
    split_ifs with h1 h2 h3 h4
    all_goals
      first
        | (dsimp only; rw [hlog1]; done)
        | (dsimp only
           have hle : req.prevLogIndex + 1 ≤ s0.log.length := by
             unfold Goraft.validPreviousLog at h3
             rcases h3 with h0 | hlt
             · omega
             · have hx := hlt.1
               simp only [hlog1] at hx
               omega
           rw [hlog1]
           exact processEntries_getElem?_below _ _ _ _ hle (by omega))
  · rw [if_neg hc]
    split_ifs with h1 h2 h3 h4
    all_goals
      first
        | (dsimp only; rw [hlog1]; done)
        | (dsimp only
           have hle : req.prevLogIndex + 1 ≤ s0.log.length := by
             unfold Goraft.validPreviousLog at h3
             rcases h3 with h0 | hlt
             · omega
             · have hx := hlt.1
               simp only [hlog1] at hx
               omega
           rw [hlog1]
           exact processEntries_getElem?_below _ _ _ _ hle (by omega))

/-- Witness for `appendEntries_commit_stability`: a heartbeat
with `prevLogIndex = commitIndex = 1` leaves the committed entry at index
1 in place. -/
theorem appendEntries_commit_stability_witness :
    (Goraft.HandleAppendEntriesRequest Fix.sAfter1 Fix.reqA3).server.log[1]? =
      Fix.sAfter1.log[1]? :=
  appendEntries_commit_stability Fix.sAfter1 Fix.reqA3 (by decide) (by decide)
    1 (by decide)

/-- C5 divergence evidence: running the apply loop over a committed entry
at index 1 whose command is empty but which carries a result sink advances
`lastApplied` past the entry while delivering to no sink (the delivery at
raft.go:653-655 is nested inside the nonempty-command branch), whereas the
same state with a nonempty command delivers to the sink exactly once. -/
theorem applyLoop_skips_empty_command_sink :
    (Goraft.advanceCommitIndex Fix.sEmptyCmd).1.lastApplied = 1 ∧
    (Goraft.advanceCommitIndex Fix.sEmptyCmd).2 = [] ∧
    (Fix.sEmptyCmd.log.getD 1 default).hasResult = true ∧
    (Fix.sEmptyCmd.log.getD 1 default).command = [] ∧
    Fix.sEmptyCmd.commitIndex = 1 ∧
    (Goraft.advanceCommitIndex Fix.sNonEmptyCmd).2 = [1] := by
  decide

/-- The countdown fold of `quorumLoop` computes truncated subtraction of
the number of counted members. -/
theorem quorumLoop_countdown (s : Goraft.Server) (i : Nat) :
    ∀ (l : List (Nat × Goraft.ClusterMember)) (q : Nat),
      l.foldl (fun acc jm => if acc = 0 then acc
        else if jm.1 = s.clusterIndex ∨ i ≤ jm.2.matchIndex then acc - 1 else acc) q =
      q - l.countP (fun jm => decide (jm.1 = s.clusterIndex ∨ i ≤ jm.2.matchIndex)) := by
  intro l
  induction l with
  | nil => intro q; simp
  | cons x xs ih =>
      intro q
      rw [List.foldl_cons, List.countP_cons]
      by_cases hq : q = 0
      · subst hq
        rw [if_pos rfl, ih]
        omega
      · rw [if_neg hq]
        by_cases hx : x.1 = s.clusterIndex ∨ i ≤ x.2.matchIndex
        · rw [if_pos hx, ih, if_pos (decide_eq_true hx)]
          omega
        · rw [if_neg hx, ih, if_neg (fun h => hx (of_decide_eq_true h))]
          omega

/-- The countdown loop of `advanceCommitIndex` reaches zero exactly when a
quorum of members holds index `i`. -/
theorem quorumLoop_eq_zero_iff (s : Goraft.Server) (i : Nat) :
    Goraft.quorumLoop s i = 0 ↔ s.cluster.length / 2 + 1 ≤ Goraft.countHolders s i := by
  unfold Goraft.quorumLoop Goraft.countHolders
  rw [quorumLoop_countdown s i]
  omega

/-- The downward scan of `advanceCommitIndex` returns the greatest
commitable index in `(commitIndex, i]`, or leaves `commitIndex` unchanged
when none exists. -/
theorem scanCommit_spec (s : Goraft.Server) : ∀ i : Nat,
    (Goraft.scanCommit s i = s.commitIndex ∧
      ∀ j, s.commitIndex < j → j ≤ i → ¬ Goraft.commitable s j) ∨
    (s.commitIndex < Goraft.scanCommit s i ∧ Goraft.scanCommit s i ≤ i ∧
      Goraft.commitable s (Goraft.scanCommit s i) ∧
      ∀ j, Goraft.scanCommit s i < j → j ≤ i → ¬ Goraft.commitable s j) := by
  intro i
  induction i with
  | zero =>
      exact Or.inl ⟨rfl, fun j hj1 hj2 => absurd hj1 (by omega)⟩
  | succ i ih =>
      unfold Goraft.scanCommit
      by_cases h1 : i + 1 ≤ s.commitIndex
      · rw [if_pos h1]
        exact Or.inl ⟨rfl, fun j hj1 hj2 => absurd hj1 (by omega)⟩
      · rw [if_neg h1]
        by_cases h2 : Goraft.quorumLoop s (i + 1) = 0 ∧
            (s.log.getD (i + 1) default).term = s.currentTerm
        · rw [if_pos h2]
          exact Or.inr ⟨by omega, Nat.le_refl _,
            ⟨(quorumLoop_eq_zero_iff s (i + 1)).mp h2.1, h2.2⟩,
            fun j hj1 hj2 => absurd hj1 (by omega)⟩
        · rw [if_neg h2]
          have hnc : ¬ Goraft.commitable s (i + 1) := fun hc =>
            h2 ⟨(quorumLoop_eq_zero_iff s (i + 1)).mpr hc.1, hc.2⟩
          rcases ih with ⟨heq, hnone⟩ | ⟨hgt, hle, hcom, hnone⟩
          · refine Or.inl ⟨heq, fun j hj1 hj2 => ?_⟩
            by_cases hj : j = i + 1
            · exact hj ▸ hnc
            · exact hnone j hj1 (by omega)
          · refine Or.inr ⟨hgt, by omega, hcom, fun j hj1 hj2 => ?_⟩
            by_cases hj : j = i + 1
            · exact hj ▸ hnc
            · exact hnone j hj1 (by omega)

/-- C1: on the leader, `advanceCommitIndex` either leaves `commitIndex`
unchanged (when no index in `(commitIndex, lastLogIndex]` is held by a
quorum with a current-term entry) or sets it to the greatest such index —
in particular it never advances to an index whose entry's term differs
from `currentTerm`. -/
theorem advanceCommitIndex_leader_spec (s : Goraft.Server)
    (hL : s.state = Goraft.ServerState.leader) (_hlog : s.log ≠ []) :
    ((Goraft.advanceCommitIndex s).1.commitIndex = s.commitIndex ∧
      ∀ i, s.commitIndex < i → i ≤ s.log.length - 1 → ¬ Goraft.commitable s i) ∨
    (s.commitIndex < (Goraft.advanceCommitIndex s).1.commitIndex ∧
      (Goraft.advanceCommitIndex s).1.commitIndex ≤ s.log.length - 1 ∧
      Goraft.commitable s ((Goraft.advanceCommitIndex s).1.commitIndex) ∧
      ∀ j, (Goraft.advanceCommitIndex s).1.commitIndex < j →
        j ≤ s.log.length - 1 → ¬ Goraft.commitable s j) := by
  have hci : (Goraft.advanceCommitIndex s).1.commitIndex =
      Goraft.scanCommit s (s.log.length - 1) := by
    unfold Goraft.advanceCommitIndex Goraft.applyLoop
    rw [if_pos hL]
  rw [hci]
  exact scanCommit_spec s (s.log.length - 1)

/-- Witness for `advanceCommitIndex_leader_spec` on a three-node leader
whose entry 1 is replicated on itself and one peer. -/
theorem advanceCommitIndex_leader_spec_witness :
    ((Goraft.advanceCommitIndex Fix.leader3).1.commitIndex = Fix.leader3.commitIndex ∧
      ∀ i, Fix.leader3.commitIndex < i → i ≤ Fix.leader3.log.length - 1 →
        ¬ Goraft.commitable Fix.leader3 i) ∨
    (Fix.leader3.commitIndex < (Goraft.advanceCommitIndex Fix.leader3).1.commitIndex ∧
      (Goraft.advanceCommitIndex Fix.leader3).1.commitIndex ≤ Fix.leader3.log.length - 1 ∧
      Goraft.commitable Fix.leader3 ((Goraft.advanceCommitIndex Fix.leader3).1.commitIndex) ∧
      ∀ j, (Goraft.advanceCommitIndex Fix.leader3).1.commitIndex < j →
        j ≤ Fix.leader3.log.length - 1 → ¬ Goraft.commitable Fix.leader3 j) :=
  advanceCommitIndex_leader_spec Fix.leader3 rfl (by decide)

/-- The metadata page is exactly one 4096-byte page. -/
theorem metadataPage_length (s : Goraft.Server) : (Goraft.metadataPage s).length = 4096 := by
  unfold Goraft.metadataPage
  rw [List.length_append, List.length_append, List.length_append,
    toLE_length, toLE_length, toLE_length, List.length_replicate]

/-- Reading back the slots written for a log recovers every entry's term
and command bytes (the in-memory result sink is not persisted). -/
theorem decodeSlots_encodeLog : ∀ (log : List Goraft.Entry) (body : List Nat),
    (∀ e ∈ log, e.term < 2 ^ 64) →
    Goraft.encodeLog log = some body →
    Goraft.decodeSlots log.length body =
      some (log.map (fun e => { command := e.command, term := e.term, hasResult := false })) := by
  intro log
  induction log with
  | nil =>
      intro body _ hb
      unfold Goraft.encodeLog at hb
      cases hb
      rfl
  | cons e rest ih =>
      intro body hterm hb
      unfold Goraft.encodeLog at hb
      cases hslot : Goraft.encodeEntry e with
      | none => rw [hslot] at hb; cases hb
      | some slot =>
          cases hrest : Goraft.encodeLog rest with
          | none => rw [hslot, hrest] at hb; cases hb
          | some rbody =>
              rw [hslot, hrest] at hb
              cases hb
              have hcmd : e.command.length ≤ 112 := by
                unfold Goraft.encodeEntry at hslot
                by_cases h : 112 < e.command.length
                · rw [if_pos h] at hslot; cases hslot
                · omega
              have hslotdef : slot = Goraft.toLE 8 e.term ++ Goraft.toLE 8 e.command.length ++
                  e.command ++ List.replicate (112 - e.command.length) 0 := by
                unfold Goraft.encodeEntry at hslot
                rw [if_neg (by omega)] at hslot
                exact (Option.some_inj.mp hslot).symm
              have hslotlen : slot.length = 128 := by
                rw [hslotdef]
                simp [toLE_length]
                omega
              have hterm_e : e.term < 2 ^ 64 := hterm e (by simp)
              have h256 : (256 : Nat) ^ 8 = 2 ^ 64 := by norm_num
              have h8 : slot.take 8 = Goraft.toLE 8 e.term := by
                rw [hslotdef]
                simp only [List.append_assoc]
                exact take_len_append _ _ 8 (toLE_length 8 _)
              have hd8 : (slot.drop 8).take 8 = Goraft.toLE 8 e.command.length := by
                rw [hslotdef]
                simp only [List.append_assoc]
                rw [drop_len_append _ _ 8 (toLE_length 8 _)]
                exact take_len_append _ _ 8 (toLE_length 8 _)
              have hd16 : (slot.drop 16).take e.command.length = e.command := by
                rw [hslotdef, show Goraft.toLE 8 e.term ++ Goraft.toLE 8 e.command.length ++
                    e.command ++ List.replicate (112 - e.command.length) 0 =
                    (Goraft.toLE 8 e.term ++ Goraft.toLE 8 e.command.length) ++
                    (e.command ++ List.replicate (112 - e.command.length) 0) by simp,
                  drop_len_append _ _ 16 (by simp [toLE_length]),
                  List.take_append_of_le_length (Nat.le_refl _), List.take_length]
              show Goraft.decodeSlots (rest.length + 1) (slot ++ rbody) = _
              unfold Goraft.decodeSlots
              rw [if_neg (by simp [hslotlen]), take_len_append _ _ 128 hslotlen,
                drop_len_append _ _ 128 hslotlen]
              dsimp only
              rw [hd8, fromLE_toLE, h256, Nat.mod_eq_of_lt (by omega),
                if_neg (by omega),
                ih rbody (fun x hx => hterm x (List.mem_cons_of_mem e hx)) hrest,
                h8, fromLE_toLE, h256, Nat.mod_eq_of_lt hterm_e, hd16]
              rfl

/-- C7: durability round trip.  Restoring the file written by a full-log
persist reconstructs exactly the same current term, votedFor and log
contents (term and command bytes of every entry); restoring an empty file
initializes term 0, votedFor 0 and a log holding only the sentinel, so
`lastLogIndex = 0`. -/
theorem persist_restore_roundtrip (s : Goraft.Server) (file : List Nat)
    (hlog : s.log ≠ []) (hterm : s.currentTerm < 2 ^ 64)
    (hvote : Goraft.getVotedFor s < 2 ^ 64) (hlen : s.log.length < 2 ^ 64)
    (hterms : ∀ e ∈ s.log, e.term < 2 ^ 64)
    (hfile : Goraft.persistBytes s = some file) :
    Goraft.restoreBytes file =
      some (s.currentTerm, Goraft.getVotedFor s,
        s.log.map (fun e => { command := e.command, term := e.term, hasResult := false })) ∧
    Goraft.restoreBytes [] =
      some (0, 0, [{ command := [], term := 0, hasResult := false }]) ∧
    ([({ command := [], term := 0, hasResult := false } : Goraft.Entry)].length - 1 = 0) := by
  refine ⟨?_, rfl, rfl⟩
  cases hbody : Goraft.encodeLog s.log with
  | none =>
      unfold Goraft.persistBytes at hfile
      rw [hbody] at hfile
      cases hfile
  | some body =>
      unfold Goraft.persistBytes at hfile
      rw [hbody] at hfile
      have hfile' : file = Goraft.metadataPage s ++ body := (Option.some_inj.mp hfile).symm
      subst hfile'
      have hplen := metadataPage_length s
      have hlen1 : (Goraft.metadataPage s ++ body).length = 4096 + body.length := by
        rw [List.length_append, hplen]
      have h256 : (256 : Nat) ^ 8 = 2 ^ 64 := by norm_num
      have hp8 : (Goraft.metadataPage s).take 8 = Goraft.toLE 8 s.currentTerm := by
        unfold Goraft.metadataPage
        simp only [List.append_assoc]
        exact take_len_append _ _ 8 (toLE_length 8 _)
      have hpd8 : ((Goraft.metadataPage s).drop 8).take 8 =
          Goraft.toLE 8 (Goraft.getVotedFor s) := by
        unfold Goraft.metadataPage
        simp only [List.append_assoc]
        rw [drop_len_append _ _ 8 (toLE_length 8 _)]
        exact take_len_append _ _ 8 (toLE_length 8 _)
      have hpd16 : ((Goraft.metadataPage s).drop 16).take 8 = Goraft.toLE 8 s.log.length := by
        unfold Goraft.metadataPage
        rw [show Goraft.toLE 8 s.currentTerm ++ Goraft.toLE 8 (Goraft.getVotedFor s) ++
            Goraft.toLE 8 s.log.length ++ List.replicate 4072 0 =
            (Goraft.toLE 8 s.currentTerm ++ Goraft.toLE 8 (Goraft.getVotedFor s)) ++
            (Goraft.toLE 8 s.log.length ++ List.replicate 4072 0) by
              rw [List.append_assoc],
          drop_len_append _ _ 16 (by rw [List.length_append, toLE_length, toLE_length])]
        exact take_len_append _ _ 8 (toLE_length 8 _)
      unfold Goraft.restoreBytes
      rw [if_neg (by omega), if_neg (by omega)]
      dsimp only
      rw [take_len_append _ _ 4096 hplen, drop_len_append _ _ 4096 hplen, hpd16, fromLE_toLE,
        h256, Nat.mod_eq_of_lt hlen,
        decodeSlots_encodeLog s.log body hterms hbody]
      dsimp only
      rw [hp8, hpd8, fromLE_toLE, fromLE_toLE, h256, Nat.mod_eq_of_lt hterm,
        Nat.mod_eq_of_lt hvote,
        if_neg (by rw [List.length_map, List.length_eq_zero]; exact hlog)]

/-- Witness for `persist_restore_roundtrip` at a two-entry log. -/
theorem persist_restore_roundtrip_witness :
    Goraft.restoreBytes ((Goraft.persistBytes Fix.sPersist).getD []) =
      some (Fix.sPersist.currentTerm, Goraft.getVotedFor Fix.sPersist,
        Fix.sPersist.log.map
          (fun e => { command := e.command, term := e.term, hasResult := false })) ∧
    Goraft.restoreBytes [] =
      some (0, 0, [{ command := [], term := 0, hasResult := false }]) ∧
    ([({ command := [], term := 0, hasResult := false } : Goraft.Entry)].length - 1 = 0) :=
  persist_restore_roundtrip Fix.sPersist ((Goraft.persistBytes Fix.sPersist).getD [])
    (by decide) (by decide) (by decide) (by decide) (by decide) (by rfl)

/-- Witness for `decodeCommand_empty_panics` at the empty file map. -/
theorem decodeCommand_empty_panics_witness :
    BackupMain.decodeCommand [] = none ∧
    BackupMain.DFSApply [] [] = none ∧
    BackupMain.decodeCommand [99] =
      some { kind := 99, path := [], oldPath := [], newPath := [], size := 0 } ∧
    BackupMain.DFSApply [] [99] = some ([], true) :=
  decodeCommand_empty_panics []
